import Mathlib

/-!
# Verification of the Pulse BLE mesh relay subsystem

Shallow embedding of the transport-and-relay subsystem of the Pulse
repository (`pulse-mobile/src/contexts/BleContext.tsx` and
`pulse-mobile/src/contexts/ChatContext.tsx`), together with proofs of the
testable properties stated in the specification.

Modelling conventions:
* JavaScript `Map` objects are modelled as association lists
  (`List (κ × β)`); `Map.set` replaces an existing binding in place and
  appends a fresh one, `Map.get` returns the first binding, matching JS
  insertion-order iteration semantics.  JS `Set` objects are lists with
  append-if-absent insertion.
* Byte strings are `List Nat` (each element a byte value); the UTF-8
  round trip through `TextDecoder` is the identity at the byte level for
  the purposes of the properties proved here, and removal of `"\0"`
  characters is removal of zero bytes.
* Timestamps (`Date.now()`) are passed in as an explicit `now : Nat`.
* Asynchronous backend calls are modelled by an explicit
  `BackendOutcome` argument describing what the `fetch` returned.
-/

namespace Pulse

/-! ## Association-list maps (JS `Map`) and sets (JS `Set`) -/

def mapLookup {α β : Type} [DecidableEq α] (m : List (α × β)) (k : α) : Option β :=
  match m with
  | [] => none
  | (k', v) :: rest => if k = k' then some v else mapLookup rest k

def mapSet {α β : Type} [DecidableEq α] (m : List (α × β)) (k : α) (v : β) : List (α × β) :=
  match m with
  | [] => [(k, v)]
  | (k', v') :: rest => if k = k' then (k, v) :: rest else (k', v') :: mapSet rest k v

def mapDelete {α β : Type} [DecidableEq α] (m : List (α × β)) (k : α) : List (α × β) :=
  match m with
  | [] => []
  | (k', v') :: rest => if k = k' then rest else (k', v') :: mapDelete rest k

def listAdd {α : Type} [DecidableEq α] (l : List α) (x : α) : List α :=
  if x ∈ l then l else l ++ [x]

theorem mapLookup_mapSet_self {α β : Type} [DecidableEq α]
    (m : List (α × β)) (k : α) (v : β) : mapLookup (mapSet m k v) k = some v := by
  induction m with
  | nil => simp [mapSet, mapLookup]
  | cons hd tl ih =>
    obtain ⟨k', v'⟩ := hd
    by_cases h : k = k' <;> simp [mapSet, mapLookup, h, ih]

theorem mapLookup_mapSet_ne {α β : Type} [DecidableEq α]
    (m : List (α × β)) (k k' : α) (v : β) (h : k' ≠ k) :
    mapLookup (mapSet m k v) k' = mapLookup m k' := by
  induction m with
  | nil => simp [mapSet, mapLookup, h]
  | cons hd tl ih =>
    obtain ⟨k'', v''⟩ := hd
    by_cases hk : k = k''
    · subst hk
      simp [mapSet, mapLookup, h]
    · by_cases hk' : k' = k'' <;> simp [mapSet, mapLookup, hk, hk', ih]

theorem mapSet_mapSet_self {α β : Type} [DecidableEq α]
    (m : List (α × β)) (k : α) (v w : β) :
    mapSet (mapSet m k v) k w = mapSet m k w := by
  induction m with
  | nil => simp [mapSet]
  | cons hd tl ih =>
    obtain ⟨k', v'⟩ := hd
    by_cases h : k = k' <;> simp [mapSet, h, ih]

theorem mapSet_of_lookup_none {α β : Type} [DecidableEq α]
    (m : List (α × β)) (k : α) (v : β) (h : mapLookup m k = none) :
    mapSet m k v = m ++ [(k, v)] := by
  induction m with
  | nil => simp [mapSet]
  | cons hd tl ih =>
    obtain ⟨k', v'⟩ := hd
    by_cases hk : k = k'
    · simp [mapLookup, hk] at h
    · simp [mapLookup, hk] at h
      simp [mapSet, hk, ih h]

theorem mapSet_of_lookup_some {α β : Type} [DecidableEq α]
    (m : List (α × β)) (k : α) (v : β) (h : mapLookup m k = some v) :
    mapSet m k v = m := by
  induction m with
  | nil => simp [mapLookup] at h
  | cons hd tl ih =>
    obtain ⟨k', v'⟩ := hd
    by_cases hk : k = k'
    · simp [mapLookup, hk] at h
      simp [mapSet, hk, h]
    · simp [mapLookup, hk] at h
      simp [mapSet, hk, ih h]

theorem mapSet_keys_of_lookup_some {α β : Type} [DecidableEq α]
    (m : List (α × β)) (k : α) (v w : β) (h : mapLookup m k = some v) :
    (mapSet m k w).map Prod.fst = m.map Prod.fst := by
  induction m with
  | nil => simp [mapLookup] at h
  | cons hd tl ih =>
    obtain ⟨k', v'⟩ := hd
    by_cases hk : k = k'
    · simp [mapSet, hk]
    · simp [mapLookup, hk] at h
      simp [mapSet, hk, ih h]

theorem mapLookup_of_mem_of_nodup {α β : Type} [DecidableEq α]
    (m : List (α × β)) (k : α) (v : β)
    (hnd : (m.map Prod.fst).Nodup) (hmem : (k, v) ∈ m) :
    mapLookup m k = some v := by
  induction m with
  | nil => simp at hmem
  | cons hd tl ih =>
    obtain ⟨k', v'⟩ := hd
    simp only [List.map_cons, List.nodup_cons] at hnd
    rcases List.mem_cons.mp hmem with h | h
    · cases h
      simp [mapLookup]
    · have hk : k ≠ k' := by
        intro hkk
        exact hnd.1 (hkk ▸ (List.mem_map.mpr ⟨(k, v), h, rfl⟩))
      simp [mapLookup, hk, ih hnd.2 h]

/-! ## Chunk codec

`bleUtils.ts` (the chunk codec) is imported by `BleContext.tsx` but its
source is not part of the repository snapshot; the codec is therefore
modelled from the specification (§4.1), constrained by how
`BleContext.tsx` consumes it: a 3-byte header carrying the message id,
the total fragment count and the 1-based sequence number plus an ack
flag, followed by `DATA_PER_CHUNK = 6` data bytes, the final fragment
zero-padded to the fixed size (`handleIncomingChunk` slices the header
off with `.slice(3)` and reassembles `totalChunks * 6` data bytes).  A
`Chunk` is the decoded form of one frame. -/

structure Chunk where
  id : Nat
  totalChunks : Nat
  chunkNumber : Nat
  isAck : Bool
  data : List Nat
  deriving Repr, DecidableEq

/-- Fixed data capacity of one broadcast frame (`DATA_PER_CHUNK` in
`BleContext.tsx`, and the fragment capacity of spec §4.1). -/
def DATA_PER_CHUNK : Nat := 6

/-- Pad a final fragment with zero bytes up to the fixed capacity. -/
def padTo (d : List Nat) : List Nat :=
  d ++ List.replicate (DATA_PER_CHUNK - d.length) 0

/-- Modelled from the spec: split a byte message into fragments of the
fixed data capacity, zero-padding the final fragment; fragment count is
`ceil (len / capacity)`, minimum 1.  The `fuel` argument makes the
recursion structural; it is always called with `fuel ≥ M.length`. -/
def splitPadAux : Nat → List Nat → List (List Nat)
  | 0, M => [padTo M]
  | fuel + 1, M =>
    if M.length ≤ DATA_PER_CHUNK then [padTo M]
    else M.take DATA_PER_CHUNK :: splitPadAux fuel (M.drop DATA_PER_CHUNK)

def splitPad (M : List Nat) : List (List Nat) := splitPadAux M.length M

/-- Number the data fragments with 1-based sequence numbers, stamping
the header fields into each. -/
def stampChunks (id total : Nat) (isAck : Bool) : Nat → List (List Nat) → List Chunk
  | _, [] => []
  | k, d :: rest => ⟨id, total, k, isAck, d⟩ :: stampChunks id total isAck (k + 1) rest

/-- Modelled from the spec: `encode(message, {isAck, reuseId})` of §4.1.
The message id is passed explicitly (the codec generates a fresh random
id when `reuseId` is absent; id generation lives in the missing
`bleUtils.ts`, so theorems quantify over the id). -/
def encodeMessageToChunks (id : Nat) (isAck : Bool) (M : List Nat) : List Chunk :=
  stampChunks id (splitPad M).length isAck 1 (splitPad M)

/-! ## Reassembly tracker state (`BleContext.tsx`) -/

/-- `MessageState` of `bleUtils.ts` as used by `BleContext.tsx`:
per-message-id reassembly entry.  `chunks` maps the 1-based sequence
number to the received chunk. -/
structure MessageState where
  id : Nat
  totalChunks : Nat
  isComplete : Bool
  isAck : Bool
  chunks : List (Nat × Chunk)
  fullMessage : List Nat
  deriving Repr, DecidableEq

/-- The mutable protocol state owned by `BleProvider`: the reassembly
map (`masterStateRef`), broadcast queue (`broadcastQueueRef`), scheduler
cursor (`broadcastCursorRef`) and running flag
(`masterIntervalRef`/`isBroadcasting`), own/received message-id sets,
peer-activity bookkeeping and the device id. -/
structure ProtocolState where
  master : List (Nat × MessageState)
  queue : List (Nat × List Chunk)
  cursor : Nat × Nat
  running : Bool
  own : List Nat
  receivedIds : List Nat
  peerActivity : List (Nat × Nat)
  peerHeartbeats : List (List Nat × Nat)
  deviceId : List Nat
  deriving Repr, DecidableEq

def initialState : ProtocolState :=
  { master := [], queue := [], cursor := (0, 0), running := false,
    own := [], receivedIds := [], peerActivity := [], peerHeartbeats := [],
    deviceId := [] }

/-- The byte string `"HEARTBEAT:"`. -/
def heartbeatMarker : List Nat := [72, 69, 65, 82, 84, 66, 69, 65, 84, 58]

def isSpaceByte (b : Nat) : Bool :=
  b == 32 || b == 9 || b == 10 || b == 11 || b == 12 || b == 13

/-- JS `String.trim()` at the byte level (whitespace only; `"\0"` is not
whitespace and is kept). -/
def jsTrim (d : List Nat) : List Nat :=
  ((d.dropWhile isSpaceByte).reverse.dropWhile isSpaceByte).reverse

/-- The guard `trimmedData.startsWith('HEARTBEAT:')` of
`handleIncomingChunk`. -/
def isHeartbeatData (d : List Nat) : Bool :=
  heartbeatMarker.isPrefixOf (jsTrim d)

/-- `trimmedData.replace('HEARTBEAT:', '').trim()`. -/
def heartbeatPeerId (d : List Nat) : List Nat :=
  jsTrim ((jsTrim d).drop heartbeatMarker.length)

/-- The corrected reassembly logic of `handleIncomingChunk`: place the
received fragments in sequence order 1..total and decode, removing all
`"\0"` characters (`.replace(/\0/g, "")` removes every zero byte, not
only the trailing padding). -/
def reassemble (total : Nat) (chunks : List (Nat × Chunk)) : List Nat :=
  (((List.range total).map
      (fun i => ((mapLookup chunks (i + 1)).map Chunk.data).getD [])).flatten).filter
    (fun b => b ≠ 0)

/-- The fragment-storage part of `handleIncomingChunk` (from the
completed/duplicate drop check onwards): drop if the entry is complete
or the sequence number was already received, otherwise store the chunk
and, when the count reaches the declared total, mark complete,
reassemble, and hand the full message out (the returned `Option` is the
completed entry passed on to the relay layer). -/
def processFragment (s : ProtocolState) (e : MessageState) (c : Chunk) :
    ProtocolState × Option MessageState :=
  if e.isComplete ∨ (mapLookup e.chunks c.chunkNumber).isSome then
    (s, none)
  else
    let chunks' := mapSet e.chunks c.chunkNumber c
    if chunks'.length = e.totalChunks then
      let e' : MessageState :=
        { e with chunks := chunks', isComplete := true,
                 fullMessage := reassemble e.totalChunks chunks' }
      ({ s with master := mapSet s.master c.id e' }, some e')
    else
      let e' : MessageState := { e with chunks := chunks' }
      ({ s with master := mapSet s.master c.id e' }, none)

/-- The received-id / peer-activity tracking step of
`handleIncomingChunk` (lines guarded by
`!receivedMessageIdsRef.current.has(id)`). -/
def trackReceived (now : Nat) (s : ProtocolState) (cid : Nat) : ProtocolState :=
  if cid ∈ s.receivedIds then s
  else { s with receivedIds := s.receivedIds ++ [cid],
                peerActivity := mapSet s.peerActivity cid now }

/-- The fresh `Collecting` entry created by `handleIncomingChunk` on the
first fragment of an unseen message id. -/
def freshEntry (c : Chunk) : MessageState :=
  ⟨c.id, c.totalChunks, false, c.isAck, [], []⟩

/-- `handleIncomingChunk` of `BleContext.tsx`: heartbeat filter, own-id
filter, received-id/peer-activity tracking, the request→ack in-place
entry reset, entry creation, and fragment processing.  `now` stands for
`Date.now()`. -/
def handleIncomingChunk (now : Nat) (s : ProtocolState) (c : Chunk) :
    ProtocolState × Option MessageState :=
  if isHeartbeatData c.data then
    let pid := heartbeatPeerId c.data
    if pid ≠ [] ∧ pid ≠ s.deviceId then
      ({ s with peerHeartbeats := mapSet s.peerHeartbeats pid now }, none)
    else (s, none)
  else if c.id ∈ s.own then
    (s, none)
  else
    let s1 : ProtocolState := trackReceived now s c.id
    match mapLookup s1.master c.id with
    | some e =>
      let e1 : MessageState :=
        if e.isAck = false ∧ c.isAck = true then
          { e with isAck := true, isComplete := false, fullMessage := [],
                   chunks := [], totalChunks := c.totalChunks }
        else e
      processFragment s1 e1 c
    | none =>
      processFragment s1 (freshEntry c) c

/-- Deliver a list of decoded chunks to `handleIncomingChunk` in order,
keeping only the state. -/
def runChunks (now : Nat) (s : ProtocolState) (l : List Chunk) : ProtocolState :=
  l.foldl (fun s c => (handleIncomingChunk now s c).1) s

/-! ## Basic lemmas about the codec -/

theorem padTo_length (d : List Nat) (h : d.length ≤ DATA_PER_CHUNK) :
    (padTo d).length = DATA_PER_CHUNK := by
  simp [padTo]
  omega

theorem splitPadAux_mem_length (fuel : Nat) :
    ∀ (M : List Nat), M.length ≤ fuel + DATA_PER_CHUNK →
      ∀ d ∈ splitPadAux fuel M, d.length = DATA_PER_CHUNK := by
  induction fuel with
  | zero =>
    intro M hM d hd
    simp [splitPadAux] at hd
    subst hd
    exact padTo_length M (by simpa using hM)
  | succ fuel ih =>
    intro M hM d hd
    by_cases h6 : M.length ≤ DATA_PER_CHUNK
    · simp [splitPadAux, h6] at hd
      subst hd
      exact padTo_length M h6
    · simp only [splitPadAux, if_neg h6, List.mem_cons] at hd
      rcases hd with hd | hd
      · subst hd
        simp [List.length_take]
        omega
      · refine ih (M.drop DATA_PER_CHUNK) ?_ d hd
        have hD : DATA_PER_CHUNK = 6 := rfl
        simp [List.length_drop]
        omega

theorem splitPad_mem_length (M : List Nat) :
    ∀ d ∈ splitPad M, d.length = DATA_PER_CHUNK :=
  splitPadAux_mem_length M.length M (by omega)

theorem splitPadAux_flatten (fuel : Nat) :
    ∀ (M : List Nat), M.length ≤ fuel + DATA_PER_CHUNK →
      ∃ k, (splitPadAux fuel M).flatten = M ++ List.replicate k 0 := by
  induction fuel with
  | zero =>
    intro M hM
    exact ⟨DATA_PER_CHUNK - M.length, by simp [splitPadAux, padTo]⟩
  | succ fuel ih =>
    intro M hM
    by_cases h6 : M.length ≤ DATA_PER_CHUNK
    · exact ⟨DATA_PER_CHUNK - M.length, by simp [splitPadAux, h6, padTo]⟩
    · obtain ⟨k, hk⟩ := ih (M.drop DATA_PER_CHUNK)
        (by have hD : DATA_PER_CHUNK = 6 := rfl
            simp [List.length_drop]
            omega)
      refine ⟨k, ?_⟩
      simp only [splitPadAux, if_neg h6, List.flatten_cons, hk]
      rw [← List.append_assoc, List.take_append_drop]

theorem splitPad_flatten (M : List Nat) :
    ∃ k, (splitPad M).flatten = M ++ List.replicate k 0 :=
  splitPadAux_flatten M.length M (by omega)

theorem splitPadAux_length_pos (fuel : Nat) (M : List Nat) :
    0 < (splitPadAux fuel M).length := by
  cases fuel with
  | zero => simp [splitPadAux]
  | succ fuel =>
    by_cases h6 : M.length ≤ DATA_PER_CHUNK <;> simp [splitPadAux, h6]

theorem splitPad_length_pos (M : List Nat) : 0 < (splitPad M).length :=
  splitPadAux_length_pos M.length M

theorem stampChunks_length (id total : Nat) (a : Bool) :
    ∀ (k : Nat) (ps : List (List Nat)),
      (stampChunks id total a k ps).length = ps.length := by
  intro k ps
  induction ps generalizing k with
  | nil => simp [stampChunks]
  | cons d rest ih => simp [stampChunks, ih]

theorem stampChunks_map_chunkNumber (id total : Nat) (a : Bool) :
    ∀ (ps : List (List Nat)) (k : Nat),
      (stampChunks id total a k ps).map Chunk.chunkNumber = List.range' k ps.length := by
  intro ps
  induction ps with
  | nil => intro k; simp [stampChunks]
  | cons d rest ih => intro k; simp [stampChunks, List.range'_succ, ih]

theorem mem_stampChunks (id total : Nat) (a : Bool) :
    ∀ (ps : List (List Nat)) (k : Nat) (c : Chunk),
      c ∈ stampChunks id total a k ps →
      ∃ i, i < ps.length ∧ c = ⟨id, total, k + i, a, ps.getD i []⟩ := by
  intro ps
  induction ps with
  | nil => intro k c hc; simp [stampChunks] at hc
  | cons d rest ih =>
    intro k c hc
    simp only [stampChunks, List.mem_cons] at hc
    rcases hc with hc | hc
    · exact ⟨0, by simp, by simpa using hc⟩
    · obtain ⟨i, hi, hc⟩ := ih (k + 1) c hc
      refine ⟨i + 1, by simpa using hi, ?_⟩
      rw [hc]
      simp
      omega

theorem stampChunks_getD_mem (id total : Nat) (a : Bool) :
    ∀ (ps : List (List Nat)) (k i : Nat), i < ps.length →
      (⟨id, total, k + i, a, ps.getD i []⟩ : Chunk) ∈ stampChunks id total a k ps := by
  intro ps
  induction ps with
  | nil => intro k i hi; simp at hi
  | cons d rest ih =>
    intro k i hi
    cases i with
    | zero => simp [stampChunks]
    | succ i =>
      simp only [stampChunks, List.mem_cons]
      right
      have := ih (k + 1) i (by simpa using hi)
      have harith : k + (i + 1) = k + 1 + i := by omega
      simpa [harith] using this

theorem mapLookup_append {α β : Type} [DecidableEq α]
    (m₁ m₂ : List (α × β)) (k : α) :
    mapLookup (m₁ ++ m₂) k =
      match mapLookup m₁ k with
      | some v => some v
      | none => mapLookup m₂ k := by
  induction m₁ with
  | nil => simp [mapLookup]
  | cons hd tl ih =>
    obtain ⟨k', v'⟩ := hd
    by_cases h : k = k' <;> simp [mapLookup, h, ih]

theorem jsTrim_length_le (d : List Nat) : (jsTrim d).length ≤ d.length := by
  unfold jsTrim
  calc ((d.dropWhile isSpaceByte).reverse.dropWhile isSpaceByte).reverse.length
      = ((d.dropWhile isSpaceByte).reverse.dropWhile isSpaceByte).length := by
        simp
    _ ≤ (d.dropWhile isSpaceByte).reverse.length :=
        (List.dropWhile_sublist _).length_le
    _ = (d.dropWhile isSpaceByte).length := by simp
    _ ≤ d.length := (List.dropWhile_sublist _).length_le

/-- A frame's data payload is at most `DATA_PER_CHUNK` bytes, which is
shorter than the `"HEARTBEAT:"` marker, so the heartbeat guard can never
fire on a chunk produced by the codec. -/
theorem isHeartbeatData_eq_false (d : List Nat) (h : d.length ≤ DATA_PER_CHUNK) :
    isHeartbeatData d = false := by
  unfold isHeartbeatData
  by_contra hcon
  have hpre : heartbeatMarker <+: jsTrim d := by
    rw [← List.isPrefixOf_iff_prefix]
    revert hcon
    cases heartbeatMarker.isPrefixOf (jsTrim d) <;> simp
  have hlen : heartbeatMarker.length ≤ (jsTrim d).length := hpre.length_le
  have := jsTrim_length_le d
  have hm : heartbeatMarker.length = 10 := rfl
  have hD : DATA_PER_CHUNK = 6 := rfl
  omega

@[simp] theorem trackReceived_master (now : Nat) (s : ProtocolState) (cid : Nat) :
    (trackReceived now s cid).master = s.master := by
  unfold trackReceived
  split <;> rfl

@[simp] theorem trackReceived_own (now : Nat) (s : ProtocolState) (cid : Nat) :
    (trackReceived now s cid).own = s.own := by
  unfold trackReceived
  split <;> rfl

@[simp] theorem processFragment_own (s : ProtocolState) (e : MessageState) (c : Chunk) :
    (processFragment s e c).1.own = s.own := by
  unfold processFragment
  dsimp only
  split
  · rfl
  · split <;> rfl

@[simp] theorem handleIncomingChunk_own (now : Nat) (s : ProtocolState) (c : Chunk) :
    ((handleIncomingChunk now s c).1).own = s.own := by
  unfold handleIncomingChunk
  dsimp only
  split
  · split <;> rfl
  · split
    · rfl
    · split
      · rw [processFragment_own, trackReceived_own]
      · rw [processFragment_own, trackReceived_own]

/-- Key invariant for the round-trip theorem: delivering a list of
pairwise-distinct, not-yet-received fragments of one non-ack message to
an existing collecting entry appends them all to the fragment map, and
the entry completes exactly when the declared total is reached. -/
theorem runChunks_collect (l : List Chunk) :
    ∀ (now : Nat) (s : ProtocolState) (e : MessageState) (id N : Nat),
    mapLookup s.master id = some e →
    id ∉ s.own →
    e.isAck = false → e.isComplete = false → e.totalChunks = N →
    e.chunks.length < N →
    (∀ c ∈ l, c.id = id ∧ c.isAck = false ∧ c.totalChunks = N ∧
      c.data.length ≤ DATA_PER_CHUNK) →
    (∀ c ∈ l, mapLookup e.chunks c.chunkNumber = none) →
    (l.map Chunk.chunkNumber).Nodup →
    e.chunks.length + l.length ≤ N →
    ∃ e', mapLookup (runChunks now s l).master id = some e' ∧
      e'.chunks = e.chunks ++ l.map (fun c => (c.chunkNumber, c)) ∧
      e'.totalChunks = N ∧ e'.isAck = false ∧
      (e.chunks.length + l.length < N →
        e'.isComplete = false ∧ e'.fullMessage = e.fullMessage) ∧
      (e.chunks.length + l.length = N →
        e'.isComplete = true ∧
        e'.fullMessage = reassemble N (e.chunks ++ l.map (fun c => (c.chunkNumber, c)))) := by
  induction l with
  | nil =>
    intro now s e id N hlook hown hack hcomp htot hlt _ _ _ _
    refine ⟨e, hlook, by simp, htot, hack, fun _ => ⟨hcomp, rfl⟩, ?_⟩
    intro h
    exfalso
    simp at h
    omega
  | cons c l' ih =>
    intro now s e id N hlook hown hack hcomp htot hlt hfacts hfresh hnd hsum
    obtain ⟨hcid, hcack, hctot, hcdata⟩ := hfacts c (List.mem_cons_self _ _)
    have hHB : isHeartbeatData c.data = false := isHeartbeatData_eq_false c.data hcdata
    have hOwn : ¬ c.id ∈ s.own := hcid ▸ hown
    have hstep : handleIncomingChunk now s c =
        processFragment (trackReceived now s c.id) e c := by
      unfold handleIncomingChunk
      rw [if_neg (by simp [hHB]), if_neg hOwn]
      dsimp only
      have hl : mapLookup (trackReceived now s c.id).master c.id = some e := by
        rw [trackReceived_master, hcid]
        exact hlook
      rw [hl]
      simp [hcack]
    have hcfresh : mapLookup e.chunks c.chunkNumber = none :=
      hfresh c (List.mem_cons_self _ _)
    have hchunks' : mapSet e.chunks c.chunkNumber c =
        e.chunks ++ [(c.chunkNumber, c)] :=
      mapSet_of_lookup_none _ _ _ hcfresh
    have hlen' : (mapSet e.chunks c.chunkNumber c).length = e.chunks.length + 1 := by
      rw [hchunks']
      simp
    have hlcons : (c :: l').length = l'.length + 1 := by simp
    have hrun : runChunks now s (c :: l') =
        runChunks now (processFragment (trackReceived now s c.id) e c).1 l' := by
      unfold runChunks
      simp [List.foldl_cons, hstep]
    by_cases hfin : e.chunks.length + 1 = N
    · -- the chunk `c` completes the entry; `l'` must be empty
      have hl' : l' = [] := by
        cases l' with
        | nil => rfl
        | cons x xs =>
          exfalso
          have hxs : (c :: x :: xs).length = xs.length + 2 := by simp
          omega
      subst hl'
      have hpf : processFragment (trackReceived now s c.id) e c =
          ({ (trackReceived now s c.id) with
              master := mapSet (trackReceived now s c.id).master c.id
                { e with chunks := mapSet e.chunks c.chunkNumber c,
                         isComplete := true,
                         fullMessage := reassemble e.totalChunks
                           (mapSet e.chunks c.chunkNumber c) } },
            some { e with chunks := mapSet e.chunks c.chunkNumber c,
                          isComplete := true,
                          fullMessage := reassemble e.totalChunks
                            (mapSet e.chunks c.chunkNumber c) }) := by
        unfold processFragment
        dsimp only
        rw [if_neg (by simp [hcomp, hcfresh]), if_pos (by rw [hlen', htot]; exact hfin)]
      refine ⟨{ e with chunks := mapSet e.chunks c.chunkNumber c
                       isComplete := true
                       fullMessage := reassemble e.totalChunks
                         (mapSet e.chunks c.chunkNumber c) },
              ?_, ?_, ?_, ?_, ?_, ?_⟩
      · rw [hrun]
        unfold runChunks
        rw [hpf]
        simp only [List.foldl_nil]
        rw [← hcid, mapLookup_mapSet_self]
      · simp [hchunks']
      · simpa using htot
      · simpa using hack
      · intro h
        exfalso
        omega
      · intro _
        refine ⟨rfl, ?_⟩
        simp only [htot, hchunks']
        simp
    · -- the entry stays incomplete; recurse on `l'`
      have hpf : processFragment (trackReceived now s c.id) e c =
          ({ (trackReceived now s c.id) with
              master := mapSet (trackReceived now s c.id).master c.id
                { e with chunks := mapSet e.chunks c.chunkNumber c } },
            none) := by
        unfold processFragment
        dsimp only
        rw [if_neg (by simp [hcomp, hcfresh]), if_neg (by rw [hlen', htot]; exact hfin)]
      have hlook2 : mapLookup (mapSet (trackReceived now s c.id).master c.id
          { e with chunks := mapSet e.chunks c.chunkNumber c }) id =
          some { e with chunks := mapSet e.chunks c.chunkNumber c } := by
        rw [← hcid, mapLookup_mapSet_self]
      have hfresh' : ∀ c' ∈ l',
          mapLookup (mapSet e.chunks c.chunkNumber c) c'.chunkNumber = none := by
        intro c' hc'
        rw [hchunks', mapLookup_append, hfresh c' (List.mem_cons_of_mem _ hc')]
        have hne : c'.chunkNumber ≠ c.chunkNumber := by
          intro heq
          have hnd' := hnd
          simp only [List.map_cons, List.nodup_cons] at hnd'
          exact hnd'.1 (List.mem_map.mpr ⟨c', hc', heq⟩)
        simp [mapLookup, hne]
      obtain ⟨e3, h1, h2, h3, h4, h5, h6⟩ :=
        ih now
          { (trackReceived now s c.id) with
              master := mapSet (trackReceived now s c.id).master c.id
                { e with chunks := mapSet e.chunks c.chunkNumber c } }
          { e with chunks := mapSet e.chunks c.chunkNumber c }
          id N hlook2 (by simpa using hown) hack hcomp htot
          (by simpa [hlen'] using (by omega : e.chunks.length + 1 < N))
          (fun c' hc' => hfacts c' (List.mem_cons_of_mem _ hc'))
          hfresh'
          (by simp only [List.map_cons, List.nodup_cons] at hnd; exact hnd.2)
          (by simpa [hlen'] using (by omega : e.chunks.length + 1 + l'.length ≤ N))
      refine ⟨e3, ?_, ?_, h3, h4, ?_, ?_⟩
      · rw [hrun, hpf]
        exact h1
      · rw [h2]
        simp only [hchunks']
        simp
      · intro hlt2
        refine h5 ?_
        simp only [hlen']
        omega
      · intro heq
        obtain ⟨hc1, hc2⟩ := h6 (by simp only [hlen']; omega)
        refine ⟨hc1, ?_⟩
        rw [hc2]
        simp [hchunks']

theorem range_map_getD (ps : List (List Nat)) :
    (List.range ps.length).map (fun i => ps.getD i []) = ps := by
  induction ps with
  | nil => simp
  | cons p rest ih =>
    rw [List.length_cons, List.range_succ_eq_map]
    simp only [List.map_cons, List.map_map, List.getD_cons_zero, Function.comp_def,
      List.getD_cons_succ]
    rw [ih]

theorem encode_map_chunkNumber (id : Nat) (a : Bool) (M : List Nat) :
    (encodeMessageToChunks id a M).map Chunk.chunkNumber =
      List.range' 1 (splitPad M).length :=
  stampChunks_map_chunkNumber id (splitPad M).length a (splitPad M) 1

theorem encode_length (id : Nat) (a : Bool) (M : List Nat) :
    (encodeMessageToChunks id a M).length = (splitPad M).length :=
  stampChunks_length id (splitPad M).length a 1 (splitPad M)

theorem mem_encode (id : Nat) (a : Bool) (M : List Nat) (c : Chunk)
    (hc : c ∈ encodeMessageToChunks id a M) :
    ∃ i, i < (splitPad M).length ∧
      c = ⟨id, (splitPad M).length, 1 + i, a, (splitPad M).getD i []⟩ :=
  mem_stampChunks id (splitPad M).length a (splitPad M) 1 c hc

theorem encode_facts (id : Nat) (M : List Nat) (c : Chunk)
    (hc : c ∈ encodeMessageToChunks id false M) :
    c.id = id ∧ c.isAck = false ∧ c.totalChunks = (splitPad M).length ∧
      c.data.length ≤ DATA_PER_CHUNK := by
  obtain ⟨i, hi, hform⟩ := mem_encode id false M c hc
  subst hform
  refine ⟨rfl, rfl, rfl, ?_⟩
  have hmem : (splitPad M).getD i [] ∈ splitPad M := by
    rw [List.getD_eq_getElem (splitPad M) [] hi]
    exact List.getElem_mem hi
  exact le_of_eq (splitPad_mem_length M _ hmem)

theorem filter_replicate_zero (k : Nat) :
    (List.replicate k 0).filter (fun b => decide (b ≠ 0)) = [] := by
  induction k with
  | zero => rfl
  | succ k ih => simp [List.replicate_succ, List.filter_cons, ih]

/-- Reassembling the fragment map obtained from any permutation of the
encoded fragments yields the original message with every zero byte
removed. -/
theorem reassemble_encode_perm (id : Nat) (M : List Nat) (l : List Chunk)
    (hperm : l.Perm (encodeMessageToChunks id false M)) :
    reassemble (splitPad M).length (l.map (fun c => (c.chunkNumber, c))) =
      M.filter (fun b => decide (b ≠ 0)) := by
  have hknd : ((l.map (fun c => (c.chunkNumber, c))).map Prod.fst).Nodup := by
    have heq : (l.map (fun c => (c.chunkNumber, c))).map Prod.fst =
        l.map Chunk.chunkNumber := by
      simp
    rw [heq]
    have hpm := hperm.map Chunk.chunkNumber
    rw [encode_map_chunkNumber] at hpm
    exact hpm.nodup_iff.mpr (List.nodup_range' _ _)
  have hlook : ∀ i, i < (splitPad M).length →
      mapLookup (l.map (fun c => (c.chunkNumber, c))) (i + 1) =
        some ⟨id, (splitPad M).length, 1 + i, false, (splitPad M).getD i []⟩ := by
    intro i hi
    apply mapLookup_of_mem_of_nodup _ _ _ hknd
    have hmem : (⟨id, (splitPad M).length, 1 + i, false, (splitPad M).getD i []⟩ : Chunk) ∈ l :=
      hperm.mem_iff.mpr (stampChunks_getD_mem id (splitPad M).length false (splitPad M) 1 i hi)
    exact List.mem_map.mpr ⟨_, hmem, by simp [Nat.add_comm]⟩
  unfold reassemble
  have hmapeq : (List.range (splitPad M).length).map
        (fun i => ((mapLookup (l.map (fun c => (c.chunkNumber, c))) (i + 1)).map
          Chunk.data).getD []) =
      (List.range (splitPad M).length).map (fun i => (splitPad M).getD i []) := by
    apply List.map_congr_left
    intro i hi
    rw [hlook i (List.mem_range.mp hi)]
    rfl
  rw [hmapeq, range_map_getD]
  obtain ⟨k, hk⟩ := splitPad_flatten M
  rw [hk, List.filter_append, filter_replicate_zero, List.append_nil]

theorem trackReceived_set_master (now : Nat) (s : ProtocolState) (cid : Nat)
    (m : List (Nat × MessageState)) :
    trackReceived now { s with master := m } cid =
      { trackReceived now s cid with master := m } := by
  unfold trackReceived
  dsimp only
  split <;> rfl

/-- Processing a fragment whose id has no reassembly entry behaves
exactly as if a fresh empty `Collecting` entry for that id had already
been present: `Unseen → Collecting` creation. -/
theorem handleIncomingChunk_fresh (now : Nat) (s : ProtocolState) (c : Chunk)
    (hHB : isHeartbeatData c.data = false) (hOwn : c.id ∉ s.own)
    (hnone : mapLookup s.master c.id = none) :
    handleIncomingChunk now s c =
      handleIncomingChunk now
        { s with master := mapSet s.master c.id (freshEntry c) } c := by
  have hOwn' : ¬ c.id ∈
      ({ s with master := mapSet s.master c.id (freshEntry c) } : ProtocolState).own := by
    simpa using hOwn
  unfold handleIncomingChunk
  rw [if_neg (by simp [hHB]), if_neg hOwn, if_neg (by simp [hHB]), if_neg hOwn']
  dsimp only
  conv_rhs => rw [trackReceived_set_master]
  have hl1 : mapLookup (trackReceived now s c.id).master c.id = none := by
    rw [trackReceived_master]
    exact hnone
  have hl2 : mapLookup
      ({ trackReceived now s c.id with master := mapSet s.master c.id (freshEntry c) } :
        ProtocolState).master c.id = some (freshEntry c) := by
    dsimp only
    exact mapLookup_mapSet_self _ _ _
  rw [hl1, hl2]
  dsimp only
  have he1 : (if (freshEntry c).isAck = false ∧ c.isAck = true then
        { freshEntry c with
            isAck := true
            isComplete := false
            fullMessage := []
            chunks := []
            totalChunks := c.totalChunks }
      else freshEntry c) = freshEntry c := by
    cases hca : c.isAck <;> simp [freshEntry, hca]
  rw [he1]
  unfold processFragment
  dsimp only
  have hdrop : ¬((freshEntry c).isComplete = true ∨
      (mapLookup (freshEntry c).chunks c.chunkNumber).isSome = true) := by
    simp [freshEntry, mapLookup]
  rw [if_neg hdrop, if_neg hdrop]
  simp only [mapSet, trackReceived_master, freshEntry]
  split <;> simp [mapSet_mapSet_self]

/-- C1 (amended): for every byte message M and every permutation of the
delivery order of its encoded fragments, once all fragments have been
received the entry is complete and the reassembled message equals M
with every zero byte removed — fragments are concatenated in sequence
order 1..total regardless of arrival order, but the code's
`.replace(/\0/g, "")` strips all zero bytes, not only the trailing
padding of the final fragment; in particular, for every M containing no
zero bytes the reassembled message equals M exactly. -/
theorem reassembly_roundtrip (now : Nat) (s : ProtocolState) (id : Nat)
    (M : List Nat) (l : List Chunk)
    (hnone : mapLookup s.master id = none)
    (hown : id ∉ s.own)
    (hperm : l.Perm (encodeMessageToChunks id false M)) :
    ∃ e, mapLookup (runChunks now s l).master id = some e ∧
      e.isComplete = true ∧
      e.fullMessage = M.filter (fun b => decide (b ≠ 0)) ∧
      ((∀ b ∈ M, b ≠ 0) → e.fullMessage = M) := by
  have hNpos : 0 < (splitPad M).length := splitPad_length_pos M
  have hlen : l.length = (splitPad M).length := by
    rw [hperm.length_eq, encode_length]
  have hfacts : ∀ c ∈ l, c.id = id ∧ c.isAck = false ∧
      c.totalChunks = (splitPad M).length ∧ c.data.length ≤ DATA_PER_CHUNK :=
    fun c hc => encode_facts id M c (hperm.mem_iff.mp hc)
  have hnd : (l.map Chunk.chunkNumber).Nodup := by
    have hpm := hperm.map Chunk.chunkNumber
    rw [encode_map_chunkNumber] at hpm
    exact hpm.nodup_iff.mpr (List.nodup_range' _ _)
  cases hl : l with
  | nil =>
    exfalso
    rw [hl] at hlen
    simp at hlen
    omega
  | cons c rest =>
    subst hl
    obtain ⟨hcid, hcack, hctot, hcdata⟩ := hfacts c (List.mem_cons_self _ _)
    have hHB : isHeartbeatData c.data = false := isHeartbeatData_eq_false c.data hcdata
    have hOwnc : c.id ∉ s.own := hcid ▸ hown
    have hnonec : mapLookup s.master c.id = none := hcid ▸ hnone
    have hbridge := handleIncomingChunk_fresh now s c hHB hOwnc hnonec
    have hrun : runChunks now s (c :: rest) =
        runChunks now
          { s with master := mapSet s.master c.id (freshEntry c) } (c :: rest) := by
      unfold runChunks
      simp only [List.foldl_cons, hbridge]
    rw [hrun]
    obtain ⟨e', h1, h2, h3, h4, h5, h6⟩ :=
      runChunks_collect (c :: rest) now
        { s with master := mapSet s.master c.id (freshEntry c) }
        (freshEntry c) id (splitPad M).length
        (by dsimp only; rw [← hcid]; exact mapLookup_mapSet_self _ _ _)
        (by simpa using hown)
        (by simpa [freshEntry] using hcack) rfl (by simpa [freshEntry] using hctot)
        (by simpa [freshEntry] using hNpos)
        hfacts
        (by intro c' _; simp [freshEntry, mapLookup])
        hnd
        (by simpa [freshEntry] using le_of_eq hlen)
    obtain ⟨hc1, hc2⟩ := h6 (by simpa [freshEntry] using hlen)
    refine ⟨e', h1, hc1, ?_, ?_⟩
    · rw [hc2]
      have hre := reassemble_encode_perm id M (c :: rest) hperm
      simpa [freshEntry] using hre
    · intro hnozero
      rw [hc2]
      have hre := reassemble_encode_perm id M (c :: rest) hperm
      have hfil : M.filter (fun b => decide (b ≠ 0)) = M :=
        List.filter_eq_self.mpr (fun b hb => by simpa using hnozero b hb)
      rw [hfil] at hre
      simpa [freshEntry] using hre

/-! ## Concrete states for counterexamples and witnesses -/

/-- A 20-byte zero-free message (spec §8 scenario: 20 bytes, capacity 6,
4 fragments). -/
def M20 : List Nat := [65, 66, 67, 68, 69, 70, 71, 72, 73, 74,
                       75, 76, 77, 78, 79, 80, 81, 82, 83, 84]

def chunk20a : Chunk := ⟨9, 4, 1, false, [65, 66, 67, 68, 69, 70]⟩
def chunk20b : Chunk := ⟨9, 4, 2, false, [71, 72, 73, 74, 75, 76]⟩
def chunk20c : Chunk := ⟨9, 4, 3, false, [77, 78, 79, 80, 81, 82]⟩
def chunk20d : Chunk := ⟨9, 4, 4, false, [83, 84, 0, 0, 0, 0]⟩

/-- A single-fragment non-ack request chunk for message id 5. -/
def cReq : Chunk := ⟨5, 1, 1, false, [65, 66, 67, 0, 0, 0]⟩

/-- The first fragment of a two-fragment ack (response) reusing id 5. -/
def cAck5 : Chunk := ⟨5, 2, 1, true, [88, 0, 0, 0, 0, 0]⟩

/-- State in which the request with id 5 has been fully reassembled
(`Complete`, non-ack). -/
def sComplete : ProtocolState := (handleIncomingChunk 0 initialState cReq).1

/-- The completed entry stored in `sComplete` for id 5. -/
def eComplete : MessageState :=
  ⟨5, 1, true, false, [(1, cReq)], [65, 66, 67]⟩

/-! ## C1: round-trip -/

/-- C1 counterexample: the claim "the reassembled message equals M
exactly ... only the trailing zero padding of the final fragment is
stripped" fails for the 3-byte message `[65, 0, 66]` delivered in
order: the code removes every `"\0"` character, so the interior zero
byte is lost and reassembly yields `[65, 66]` ≠ `[65, 0, 66]`. -/
theorem c1_roundtrip_counterexample :
    (mapLookup (runChunks 0 initialState
        (encodeMessageToChunks 7 false [65, 0, 66])).master 7).map
      MessageState.fullMessage = some [65, 66] ∧
    some ([65, 66] : List Nat) ≠ some [65, 0, 66] := by
  constructor
  · rfl
  · decide

/-! ## C4: no resurrection -/

/-- C4 counterexample: the claim "once Complete, any further fragment
for that id leaves all reassembly state unchanged ... regardless of its
ack flag" fails: an ack-flagged fragment arriving at a completed
non-ack entry resets the entry (the request→ack switch of
`handleIncomingChunk` runs before the completed-drop check), so the
state for that id changes. -/
theorem c4_no_resurrection_counterexample :
    ((mapLookup sComplete.master 5).map MessageState.isComplete = some true) ∧
    (handleIncomingChunk 0 sComplete cAck5).1.master ≠ sComplete.master := by
  constructor
  · rfl
  · decide

/-- C4 (amended): once a message id is `Complete`, any further fragment
for that id that does not trigger the request→ack switch — i.e., any
fragment whose ack flag is clear, or any fragment arriving at an entry
already in the ack role — is silently dropped: the reassembly map is
unchanged for every id, and nothing is handed to the relay layer,
regardless of the fragment's declared total and sequence number. -/
theorem c4_no_resurrection (now : Nat) (s : ProtocolState) (c : Chunk) (e : MessageState)
    (hlook : mapLookup s.master c.id = some e)
    (hcomp : e.isComplete = true)
    (hnoswitch : e.isAck = true ∨ c.isAck = false) :
    (handleIncomingChunk now s c).1.master = s.master ∧
    (handleIncomingChunk now s c).2 = none := by
  by_cases hHB : isHeartbeatData c.data
  · unfold handleIncomingChunk
    rw [if_pos (by simp [hHB])]
    dsimp only
    split
    · exact ⟨rfl, rfl⟩
    · exact ⟨rfl, rfl⟩
  · by_cases hOwn : c.id ∈ s.own
    · unfold handleIncomingChunk
      rw [if_neg (by simp [hHB]), if_pos hOwn]
      exact ⟨rfl, rfl⟩
    · unfold handleIncomingChunk
      rw [if_neg (by simp [hHB]), if_neg hOwn]
      dsimp only
      have hl : mapLookup (trackReceived now s c.id).master c.id = some e := by
        rw [trackReceived_master]
        exact hlook
      rw [hl]
      dsimp only
      have he1 : (if e.isAck = false ∧ c.isAck = true then
            { e with isAck := true, isComplete := false, fullMessage := [],
                     chunks := [], totalChunks := c.totalChunks }
          else e) = e := by
        rcases hnoswitch with h | h
        · simp [h]
        · simp [h]
      rw [he1]
      unfold processFragment
      dsimp only
      rw [if_pos (by simp [hcomp])]
      exact ⟨trackReceived_master now s c.id, rfl⟩

/-- C4 witness: in the concrete completed state, a duplicate non-ack
fragment for id 5 is dropped without any change. -/
theorem c4_no_resurrection_witness :
    (handleIncomingChunk 0 sComplete cReq).1.master = sComplete.master ∧
    (handleIncomingChunk 0 sComplete cReq).2 = none :=
  c4_no_resurrection 0 sComplete cReq eComplete (by decide) (by decide)
    (Or.inr (by decide))

/-! ## C5: request→ack in-place switch -/

theorem processFragment_keys (s : ProtocolState) (e : MessageState) (c : Chunk)
    (hsome : (mapLookup s.master c.id).isSome = true) :
    ((processFragment s e c).1.master).map Prod.fst = s.master.map Prod.fst := by
  obtain ⟨v, hv⟩ := Option.isSome_iff_exists.mp hsome
  unfold processFragment
  dsimp only
  split
  · rfl
  · split
    · exact mapSet_keys_of_lookup_some s.master c.id v _ hv
    · exact mapSet_keys_of_lookup_some s.master c.id v _ hv

theorem master_keys_of_lookup_isSome (now : Nat) (s : ProtocolState) (c : Chunk)
    (hlook : (mapLookup s.master c.id).isSome = true) :
    ((handleIncomingChunk now s c).1.master).map Prod.fst = s.master.map Prod.fst := by
  obtain ⟨e, he⟩ := Option.isSome_iff_exists.mp hlook
  by_cases hHB : isHeartbeatData c.data
  · unfold handleIncomingChunk
    rw [if_pos (by simp [hHB])]
    dsimp only
    split
    · rfl
    · rfl
  · by_cases hOwn : c.id ∈ s.own
    · unfold handleIncomingChunk
      rw [if_neg (by simp [hHB]), if_pos hOwn]
    · unfold handleIncomingChunk
      rw [if_neg (by simp [hHB]), if_neg hOwn]
      dsimp only
      have hl : mapLookup (trackReceived now s c.id).master c.id = some e := by
        rw [trackReceived_master]
        exact he
      rw [hl]
      dsimp only
      have hsome : (mapLookup (trackReceived now s c.id).master c.id).isSome = true := by
        rw [hl]
        rfl
      exact (processFragment_keys (trackReceived now s c.id) _ c hsome).trans
        (by rw [trackReceived_master])

/-- C1 witness: the spec §8 scenario — a 20-byte message encoded with
fragment capacity 6 into 4 fragments, delivered in order [4,2,1,3],
reassembles to exactly the original 20 bytes. -/
theorem c1_roundtrip_witness :
    ∃ e, mapLookup (runChunks 0 initialState
        [chunk20d, chunk20b, chunk20a, chunk20c]).master 9 = some e ∧
      e.isComplete = true ∧
      e.fullMessage = M20.filter (fun b => decide (b ≠ 0)) ∧
      ((∀ b ∈ M20, b ≠ 0) → e.fullMessage = M20) :=
  reassembly_roundtrip 0 initialState 9 M20
    [chunk20d, chunk20b, chunk20a, chunk20c]
    (by decide) (by decide) (by decide)

/-- C5: when a fragment with the ack flag set arrives and the stored
entry for the same message id is a non-ack request, the entry is
transitioned in place: processing continues exactly as if the stored
entry had been replaced, under the same key, by the reset entry — same
entry id field, fragment set cleared, reconstructed message cleared,
total fragment count replaced by the incoming fragment's declared
total, completion flag cleared, role switched to ack — and no new entry
is allocated (the key set of the reassembly map is unchanged). -/
theorem c5_ack_switch (now : Nat) (s : ProtocolState) (c : Chunk) (e : MessageState)
    (hlook : mapLookup s.master c.id = some e)
    (hreq : e.isAck = false) (hack : c.isAck = true)
    (hHB : isHeartbeatData c.data = false) (hOwn : c.id ∉ s.own) :
    handleIncomingChunk now s c =
      handleIncomingChunk now
        { s with
            master := mapSet s.master c.id
              { e with
                  isAck := true
                  isComplete := false
                  fullMessage := []
                  chunks := []
                  totalChunks := c.totalChunks } } c ∧
    ((handleIncomingChunk now s c).1.master).map Prod.fst = s.master.map Prod.fst := by
  constructor
  · unfold handleIncomingChunk
    rw [if_neg (by simp [hHB]), if_neg hOwn, if_neg (by simp [hHB]),
      if_neg (by simpa using hOwn)]
    dsimp only
    conv_rhs => rw [trackReceived_set_master]
    have hl1 : mapLookup (trackReceived now s c.id).master c.id = some e := by
      rw [trackReceived_master]
      exact hlook
    have hl2 : mapLookup
        ({ trackReceived now s c.id with
            master := mapSet s.master c.id
              { e with
                  isAck := true
                  isComplete := false
                  fullMessage := []
                  chunks := []
                  totalChunks := c.totalChunks } } : ProtocolState).master c.id =
        some { e with
                 isAck := true
                 isComplete := false
                 fullMessage := []
                 chunks := []
                 totalChunks := c.totalChunks } := by
      dsimp only
      exact mapLookup_mapSet_self _ _ _
    rw [hl1, hl2]
    dsimp only
    rw [if_pos ⟨hreq, hack⟩, if_neg (by simp)]
    unfold processFragment
    dsimp only
    split
    · rename_i hbad
      simp [mapLookup] at hbad
    · split <;> simp [mapSet_mapSet_self, trackReceived_master]
  · refine master_keys_of_lookup_isSome now s c ?_
    rw [hlook]
    rfl

/-- C5 witness: in the concrete state where the single-fragment request
with id 5 is complete, the arriving ack fragment with the same id
resets the entry in place and processing proceeds on the reset entry;
the key set of the reassembly map is unchanged. -/
theorem c5_ack_switch_witness :
    (handleIncomingChunk 0 sComplete cAck5 =
      handleIncomingChunk 0
        { sComplete with
            master := mapSet sComplete.master 5
              { eComplete with
                  isAck := true
                  isComplete := false
                  fullMessage := []
                  chunks := []
                  totalChunks := 2 } } cAck5) ∧
    ((handleIncomingChunk 0 sComplete cAck5).1.master).map Prod.fst =
      sComplete.master.map Prod.fst :=
  c5_ack_switch 0 sComplete cAck5 eComplete (by decide) (by decide) (by decide)
    (by decide) (by decide)

/-! ## Relay Application Layer (`handleRelayMessage` of `BleContext.tsx`
together with the `ChatProvider` response callback of `ChatContext.tsx`) -/

inductive RelayType
  | query
  | response
  deriving Repr, DecidableEq

/-- The decoded `RelayMessage` payload (`RELAY_QUERY` / `RELAY_RESPONSE`).
Fields not consulted by the relay state machine (`query_text`,
`query_type`, `location`, `sos_data`) are omitted; `original_device` and
`response` are kept because the control flow branches on them. -/
structure RelayMessage where
  type : RelayType
  query_id : String
  original_device : Option String := none
  response : Option String := none
  deriving Repr, DecidableEq

/-- Outcome of the `fetch` to `POST /api/relay/query`: `unreachable`
covers a network error, a timeout, or a non-OK HTTP status (all of
which throw and land in the catch block); `replied ok resp` is an OK
response whose JSON body carried `success = ok` and `response = resp`. -/
inductive BackendOutcome
  | unreachable
  | replied (success : Bool) (response : Option String)
  deriving Repr, DecidableEq

/-- A pending local query tracked by `ChatContext.tsx`
(`PendingQuery`). -/
structure PendingQuery where
  queryId : String
  messageId : String
  text : String
  deriving Repr, DecidableEq

/-- The chat-side state of `ChatProvider`: the pending-query list and
the message list (message id paired with text). -/
structure ChatState where
  pending : List PendingQuery
  messages : List (String × String)
  deriving Repr, DecidableEq

/-- The relay-layer state: `processedRelayQueriesRef`,
`rebroadcastedQueryIdsRef`, `querySenderMapRef`, whether
`relayResponseCallbackRef` holds a callback, the number of times that
callback has been invoked, and the `ChatProvider` state that the
registered callback closes over. -/
structure RelayState where
  processed : List String
  rebroadcasted : List String
  querySender : List (String × String)
  callbackRegistered : Bool
  invocations : Nat
  chat : ChatState
  deriving Repr, DecidableEq

/-- The relay-response callback registered by `ChatProvider`
(`ChatContext.tsx` lines 209-253): find the pending query with this
query id; if found, append the AI message (with a fresh message id),
remove the pending "searching" placeholder message, and remove every
pending entry with this query id; otherwise leave everything unchanged.
The nested-JSON unwrapping of the response text is the identity here
(the unwrapped text is not the subject of any claim). -/
def chatOnRelayResponse (freshId qid resp : String) (cs : ChatState) : ChatState :=
  match cs.pending.find? (fun q => q.queryId == qid) with
  | some p =>
      { pending := cs.pending.filter (fun q => !(q.queryId == qid)),
        messages := (freshId, resp) :: cs.messages.filter (fun m => !(m.1 == p.messageId)) }
  | none => cs

/-- `handleRelayMessage` of `BleContext.tsx` (with the `ChatProvider`
callback inlined as `chatOnRelayResponse`).  `hasInternet` is the
injected connectivity signal, `backend` the outcome of the backend call
(consulted only on the online query path), `freshId` a fresh chat
message id.  The returned list holds the messages passed to
`broadcastMessage` (rebroadcasts and backend responses), in order. -/
def handleRelayMessage (hasInternet : Bool) (backend : BackendOutcome)
    (freshId : String) (s : RelayState) (m : RelayMessage) :
    RelayState × List RelayMessage :=
  match m.type with
  | RelayType.query =>
    if m.query_id ∈ s.processed then (s, [])
    else if m.query_id ∈ s.rebroadcasted then (s, [])
    else if hasInternet then
      let s1 : RelayState := { s with processed := s.processed ++ [m.query_id] }
      match backend with
      | BackendOutcome.unreachable => (s1, [])
      | BackendOutcome.replied ok resp =>
        match ok, resp with
        | true, some r =>
          if r ≠ "" then
            (s1, [{ type := RelayType.response, query_id := m.query_id, response := some r }])
          else (s1, [])
        | _, _ => (s1, [])
    else
      let s1 : RelayState :=
        { s with
            rebroadcasted := s.rebroadcasted ++ [m.query_id]
            querySender :=
              match m.original_device with
              | some d => if d ≠ "" then mapSet s.querySender m.query_id d else s.querySender
              | none => s.querySender }
      (s1, [m])
  | RelayType.response =>
    let s1 : RelayState :=
      match m.response with
      | some r =>
        if s.callbackRegistered ∧ r ≠ "" then
          { s with
              invocations := s.invocations + 1
              chat := chatOnRelayResponse freshId m.query_id r s.chat }
        else s
      | none => s
    if ¬hasInternet ∧ ("response-" ++ m.query_id) ∉ s1.rebroadcasted then
      ({ s1 with rebroadcasted := s1.rebroadcasted ++ ["response-" ++ m.query_id] }, [m])
    else (s1, [])

theorem find?_filter_not {α : Type} (l : List α) (p : α → Bool) :
    (l.filter (fun x => !(p x))).find? p = none := by
  rw [List.find?_eq_none]
  intro x hx
  have h2 := (List.mem_filter.mp hx).2
  simp at h2
  simp [h2]

theorem filter_not_eq_self_of_find?_none {α : Type} (l : List α) (p : α → Bool)
    (h : l.find? p = none) : l.filter (fun x => !(p x)) = l := by
  rw [List.filter_eq_self]
  intro x hx
  have := List.find?_eq_none.mp h x hx
  simpa using this

/-! ## C2: single-shot relay while offline -/

/-- C2: while offline, the first receipt of a query whose id is in
neither dedup set adds the id to `rebroadcastedIds` and requests exactly
one rebroadcast of the query (and leaves `processedQueryIds` alone);
after that, any receipt of a query with the same id — whatever the
backend outcome or fresh id — returns the state unchanged and requests
no broadcast. -/
theorem c2_single_shot_relay (backend : BackendOutcome) (freshId : String)
    (s : RelayState) (m : RelayMessage)
    (hty : m.type = RelayType.query)
    (hp : m.query_id ∉ s.processed)
    (hr : m.query_id ∉ s.rebroadcasted) :
    (handleRelayMessage false backend freshId s m).1.rebroadcasted =
      s.rebroadcasted ++ [m.query_id] ∧
    (handleRelayMessage false backend freshId s m).2 = [m] ∧
    (handleRelayMessage false backend freshId s m).1.processed = s.processed ∧
    (∀ (backend' : BackendOutcome) (freshId' : String) (m' : RelayMessage),
      m'.type = RelayType.query → m'.query_id = m.query_id →
      handleRelayMessage false backend' freshId'
        (handleRelayMessage false backend freshId s m).1 m' =
        ((handleRelayMessage false backend freshId s m).1, [])) := by
  obtain ⟨ty, qid, od, resp⟩ := m
  simp only [] at hty
  subst hty
  simp only [] at hp hr
  have h1 : handleRelayMessage false backend freshId s
      ⟨RelayType.query, qid, od, resp⟩ =
      ({ s with
           rebroadcasted := s.rebroadcasted ++ [qid]
           querySender :=
             match od with
             | some d => if d ≠ "" then mapSet s.querySender qid d else s.querySender
             | none => s.querySender },
       [⟨RelayType.query, qid, od, resp⟩]) := by
    simp [handleRelayMessage, hp, hr]
  rw [h1]
  refine ⟨rfl, rfl, rfl, ?_⟩
  intro backend' freshId' m' hty' hqid'
  obtain ⟨ty', qid', od', resp'⟩ := m'
  simp only [] at hty' hqid'
  subst hty'
  simp [handleRelayMessage, hqid', hp]

/-- Concrete relay states for the witnesses and counterexamples. -/
def chat0 : ChatState := ⟨[], []⟩

def relay0 : RelayState := ⟨[], [], [], true, 0, chat0⟩

def qMsg : RelayMessage := ⟨RelayType.query, "q1", some "devA", none⟩

def respMsg : RelayMessage := ⟨RelayType.response, "q1", none, some "42"⟩

/-- A chat state with one pending local query `q1`. -/
def chatP : ChatState := ⟨[⟨"q1", "m1", "hello"⟩], [("m1", "searching")]⟩

def relayP : RelayState := ⟨[], [], [], true, 0, chatP⟩

/-- C2 witness: offline receipt of `Query{q1}` in the empty relay state
marks `q1` rebroadcasted with exactly one rebroadcast; a repeat receipt
is a no-op. -/
theorem c2_single_shot_relay_witness :
    (handleRelayMessage false BackendOutcome.unreachable "f" relay0 qMsg).1.rebroadcasted =
      relay0.rebroadcasted ++ ["q1"] ∧
    (handleRelayMessage false BackendOutcome.unreachable "f" relay0 qMsg).2 = [qMsg] ∧
    (handleRelayMessage false BackendOutcome.unreachable "f" relay0 qMsg).1.processed =
      relay0.processed ∧
    (∀ (backend' : BackendOutcome) (freshId' : String) (m' : RelayMessage),
      m'.type = RelayType.query → m'.query_id = "q1" →
      handleRelayMessage false backend' freshId'
        (handleRelayMessage false BackendOutcome.unreachable "f" relay0 qMsg).1 m' =
        ((handleRelayMessage false BackendOutcome.unreachable "f" relay0 qMsg).1, [])) :=
  c2_single_shot_relay BackendOutcome.unreachable "f" relay0 qMsg rfl
    (by decide) (by decide)

/-! ## C3: exactly-once response delivery -/

/-- C3 counterexample: the registered relay-response callback is
invoked even when no pending local query with the response's query id
exists (the pending check lives inside the `ChatProvider` callback, not
in `handleRelayMessage`), and a duplicate `Response` invokes the
callback a second time. -/
theorem c3_response_counterexample :
    ((handleRelayMessage true BackendOutcome.unreachable "f" relay0 respMsg).1.invocations = 1 ∧
      relay0.chat.pending = []) ∧
    ((handleRelayMessage true BackendOutcome.unreachable "f2"
        (handleRelayMessage true BackendOutcome.unreachable "f" relayP respMsg).1
        respMsg).1.invocations = 2) := by
  constructor
  · constructor
    · rfl
    · rfl
  · rfl

/-- C3 (amended): a reassembled `Response{queryId}` carrying a nonempty
response invokes the registered callback on every receipt, regardless
of the pending state; the chat-level delivery, however, is gated on a
pending query: every pending entry with that query id is purged, the
chat state is untouched when no pending query with that id exists, and
a second receipt of the same response finds no pending entry and leaves
the chat state unchanged (although the callback is invoked again). -/
theorem c3_response_delivery (hasInternet : Bool) (backend : BackendOutcome)
    (freshId : String) (s : RelayState) (m : RelayMessage) (r : String)
    (hty : m.type = RelayType.response)
    (hresp : m.response = some r) (hr : r ≠ "")
    (hreg : s.callbackRegistered = true) :
    (handleRelayMessage hasInternet backend freshId s m).1.invocations =
      s.invocations + 1 ∧
    (handleRelayMessage hasInternet backend freshId s m).1.chat.pending =
      s.chat.pending.filter (fun q => !(q.queryId == m.query_id)) ∧
    (s.chat.pending.find? (fun q => q.queryId == m.query_id) = none →
      (handleRelayMessage hasInternet backend freshId s m).1.chat = s.chat) ∧
    (∀ (backend' : BackendOutcome) (freshId' : String),
      (handleRelayMessage hasInternet backend' freshId'
        (handleRelayMessage hasInternet backend freshId s m).1 m).1.chat =
      (handleRelayMessage hasInternet backend freshId s m).1.chat) := by
  obtain ⟨ty, qid, od, resp⟩ := m
  simp only [] at hty hresp
  subst hty
  subst hresp
  have hstep : ∀ (b : BackendOutcome) (f : String) (s' : RelayState),
      s'.callbackRegistered = true →
      (handleRelayMessage hasInternet b f s'
        ⟨RelayType.response, qid, od, some r⟩).1.invocations = s'.invocations + 1 ∧
      (handleRelayMessage hasInternet b f s'
        ⟨RelayType.response, qid, od, some r⟩).1.chat =
        chatOnRelayResponse f qid r s'.chat := by
    intro b f s' hreg'
    simp only [handleRelayMessage, if_pos (And.intro hreg' hr)]
    split
    · exact ⟨rfl, rfl⟩
    · exact ⟨rfl, rfl⟩
  obtain ⟨hinv, hchat⟩ := hstep backend freshId s hreg
  have hpend : (chatOnRelayResponse freshId qid r s.chat).pending =
      s.chat.pending.filter (fun q => !(q.queryId == qid)) := by
    unfold chatOnRelayResponse
    split
    · rfl
    · rename_i hfind
      rw [filter_not_eq_self_of_find?_none _ _ hfind]
  refine ⟨hinv, by rw [hchat]; exact hpend, ?_, ?_⟩
  · intro hnone
    rw [hchat]
    unfold chatOnRelayResponse
    rw [hnone]
  · intro backend' freshId'
    set s1 : RelayState := (handleRelayMessage hasInternet backend freshId s
      ⟨RelayType.response, qid, od, some r⟩).1 with hs1
    have hreg2 : s1.callbackRegistered = true := by
      rw [hs1]
      simp only [handleRelayMessage, if_pos (And.intro hreg hr)]
      split
      · exact hreg
      · exact hreg
    obtain ⟨_, hchat2⟩ := hstep backend' freshId' s1 hreg2
    rw [hchat2]
    have hfind : s1.chat.pending.find? (fun q => q.queryId == qid) = none := by
      rw [hchat, hpend]
      exact find?_filter_not _ _
    unfold chatOnRelayResponse
    rw [hfind]

/-- C3 witness: with one pending query `q1`, the response `"42"` is
delivered: the callback fires, the pending entry is purged, and a
duplicate response leaves the chat state unchanged. -/
theorem c3_response_delivery_witness :
    (handleRelayMessage true BackendOutcome.unreachable "f" relayP respMsg).1.invocations =
      relayP.invocations + 1 ∧
    (handleRelayMessage true BackendOutcome.unreachable "f" relayP respMsg).1.chat.pending =
      relayP.chat.pending.filter (fun q => !(q.queryId == "q1")) ∧
    (relayP.chat.pending.find? (fun q => q.queryId == "q1") = none →
      (handleRelayMessage true BackendOutcome.unreachable "f" relayP respMsg).1.chat =
        relayP.chat) ∧
    (∀ (backend' : BackendOutcome) (freshId' : String),
      (handleRelayMessage true backend' freshId'
        (handleRelayMessage true BackendOutcome.unreachable "f" relayP respMsg).1
        respMsg).1.chat =
      (handleRelayMessage true BackendOutcome.unreachable "f" relayP respMsg).1.chat) :=
  c3_response_delivery true BackendOutcome.unreachable "f" relayP respMsg "42"
    rfl rfl (by decide) rfl

/-! ## C8: backend failure does not trigger the offline relay path -/

/-- C8: when the online backend call for a first-seen query fails
(network error, non-OK status, or timeout — all of which throw into the
catch block), the offline relay path is not triggered: the query id is
not added to `rebroadcastedIds`, nothing is enqueued for broadcast, the
sender map is untouched, and the query id stays in `processedQueryIds`
(added before the call), so any retry receipt of the same query id is
dropped with no state change. -/
theorem c8_backend_failure (freshId : String) (s : RelayState) (m : RelayMessage)
    (hty : m.type = RelayType.query)
    (hp : m.query_id ∉ s.processed)
    (hr : m.query_id ∉ s.rebroadcasted) :
    (handleRelayMessage true BackendOutcome.unreachable freshId s m).1.processed =
      s.processed ++ [m.query_id] ∧
    (handleRelayMessage true BackendOutcome.unreachable freshId s m).1.rebroadcasted =
      s.rebroadcasted ∧
    (handleRelayMessage true BackendOutcome.unreachable freshId s m).1.querySender =
      s.querySender ∧
    (handleRelayMessage true BackendOutcome.unreachable freshId s m).2 = [] ∧
    (∀ (hi' : Bool) (backend' : BackendOutcome) (freshId' : String) (m' : RelayMessage),
      m'.type = RelayType.query → m'.query_id = m.query_id →
      handleRelayMessage hi' backend' freshId'
        (handleRelayMessage true BackendOutcome.unreachable freshId s m).1 m' =
        ((handleRelayMessage true BackendOutcome.unreachable freshId s m).1, [])) := by
  obtain ⟨ty, qid, od, resp⟩ := m
  simp only [] at hty
  subst hty
  simp only [] at hp hr
  have h1 : handleRelayMessage true BackendOutcome.unreachable freshId s
      ⟨RelayType.query, qid, od, resp⟩ =
      ({ s with processed := s.processed ++ [qid] }, []) := by
    simp [handleRelayMessage, hp, hr]
  rw [h1]
  refine ⟨rfl, rfl, rfl, rfl, ?_⟩
  intro hi' backend' freshId' m' hty' hqid'
  obtain ⟨ty', qid', od', resp'⟩ := m'
  simp only [] at hty' hqid'
  subst hty'
  simp [handleRelayMessage, hqid']

/-- C8 witness: online receipt of `Query{q1}` with an unreachable
backend marks it processed, triggers no rebroadcast, and drops a
retry. -/
theorem c8_backend_failure_witness :
    (handleRelayMessage true BackendOutcome.unreachable "f" relay0 qMsg).1.processed =
      relay0.processed ++ ["q1"] ∧
    (handleRelayMessage true BackendOutcome.unreachable "f" relay0 qMsg).1.rebroadcasted =
      relay0.rebroadcasted ∧
    (handleRelayMessage true BackendOutcome.unreachable "f" relay0 qMsg).1.querySender =
      relay0.querySender ∧
    (handleRelayMessage true BackendOutcome.unreachable "f" relay0 qMsg).2 = [] ∧
    (∀ (hi' : Bool) (backend' : BackendOutcome) (freshId' : String) (m' : RelayMessage),
      m'.type = RelayType.query → m'.query_id = "q1" →
      handleRelayMessage hi' backend' freshId'
        (handleRelayMessage true BackendOutcome.unreachable "f" relay0 qMsg).1 m' =
        ((handleRelayMessage true BackendOutcome.unreachable "f" relay0 qMsg).1, [])) :=
  c8_backend_failure "f" relay0 qMsg rfl (by decide) (by decide)

/-! ## Broadcast scheduler (`startMasterBroadcastLoop` /
`stopMasterBroadcastLoop` of `BleContext.tsx`) -/

/-- `stopMasterBroadcastLoop`: cancel the timer (`running := false`) and
clear the cursor. -/
def stopMasterBroadcastLoop (s : ProtocolState) : ProtocolState :=
  { s with running := false, cursor := (0, 0) }

/-- One tick of the `setInterval` callback in `startMasterBroadcastLoop`
(lines 516-550): snapshot the queue entries; stop if empty; wrap a stale
`queueIndex`; delete the current entry if its chunk list is empty
(resetting the cursor) without transmitting; otherwise wrap a stale
`chunkIndex`, transmit the chunk under the cursor, advance `chunkIndex`
and, when the entry is exhausted, advance `queueIndex` (wrapping).  The
second component is the transmitted chunk, if any. -/
def tick (s : ProtocolState) : ProtocolState × Option Chunk :=
  let entries := s.queue
  if entries.isEmpty then (stopMasterBroadcastLoop s, none)
  else
    let qi := if s.cursor.1 ≥ entries.length then 0 else s.cursor.1
    let entry := entries.getD qi (0, [])
    if entry.2.isEmpty then
      ({ s with queue := mapDelete s.queue entry.1, cursor := (0, 0) }, none)
    else
      let ci := if s.cursor.2 ≥ entry.2.length then 0 else s.cursor.2
      let sent := entry.2.getD ci ⟨0, 0, 0, false, []⟩
      let ci1 := ci + 1
      let cursor' :=
        if ci1 ≥ entry.2.length then
          (if qi + 1 ≥ entries.length then 0 else qi + 1, 0)
        else (qi, ci1)
      ({ s with cursor := cursor' }, some sent)

/-- Run `n` scheduler ticks, collecting the transmitted chunks in
order. -/
def runTicks (n : Nat) (s : ProtocolState) : ProtocolState × List Chunk :=
  match n with
  | 0 => (s, [])
  | n + 1 =>
    let t := tick s
    let r := runTicks n t.1
    (r.1, t.2.toList ++ r.2)

theorem runTicks_add (a b : Nat) (s : ProtocolState) :
    runTicks (a + b) s =
      ((runTicks b (runTicks a s).1).1,
        (runTicks a s).2 ++ (runTicks b (runTicks a s).1).2) := by
  induction a generalizing s with
  | zero => simp [runTicks]
  | succ a ih =>
    have : a + 1 + b = (a + b) + 1 := by omega
    rw [this]
    simp only [runTicks]
    rw [ih]
    simp [List.append_assoc]

theorem getD_append_cons {α : Type} (pre post : List α) (e d : α) :
    (pre ++ e :: post).getD pre.length d = e := by
  induction pre with
  | nil => rfl
  | cons x xs ih => simpa using ih

/-- Draining one queue entry: starting at `(pre.length, ci)` with
`ci + k` chunks of which `ci` are already sent, `k` ticks transmit the
remaining chunks of that entry in order, leave the queue untouched, and
advance the cursor to the next entry (wrapping). -/
theorem tick_drain (k : Nat) :
    ∀ (s : ProtocolState) (pre post : List (Nat × List Chunk))
      (e : Nat × List Chunk) (ci : Nat),
    s.queue = pre ++ e :: post →
    s.cursor = (pre.length, ci) →
    ci + k = e.2.length →
    0 < k →
    runTicks k s =
      ({ s with cursor :=
          (if pre.length + 1 ≥ s.queue.length then 0 else pre.length + 1, 0) },
        e.2.drop ci) := by
  induction k with
  | zero =>
    intro _ _ _ _ _ _ _ _ hk
    exact absurd hk (by omega)
  | succ k ih =>
    intro s pre post e ci hq hc hsum _
    have hlen : s.queue.length = pre.length + 1 + post.length := by
      rw [hq]
      simp
      omega
    have hci : ci < e.2.length := by omega
    have hne : ¬s.queue.isEmpty := by
      rw [hq]
      simp
    have hqi : ¬(s.cursor.1 ≥ s.queue.length) := by
      rw [hc, hlen]
      simp
      omega
    have hentry : s.queue.getD s.cursor.1 (0, []) = e := by
      rw [hq, hc]
      exact getD_append_cons pre post e (0, [])
    have hee : ¬e.2.isEmpty = true := by
      cases h2 : e.2 with
      | nil => rw [h2] at hci; simp at hci
      | cons a b => simp
    have hcib : ¬(s.cursor.2 ≥ e.2.length) := by
      rw [hc]
      simpa using hci
    have htick : tick s =
        ({ s with cursor :=
            if ci + 1 ≥ e.2.length then
              (if pre.length + 1 ≥ s.queue.length then 0 else pre.length + 1, 0)
            else (pre.length, ci + 1) },
          some (e.2.getD ci ⟨0, 0, 0, false, []⟩)) := by
      unfold tick
      rw [if_neg (by simp [hne])]
      dsimp only
      rw [if_neg hqi]
      rw [show s.queue.getD s.cursor.1 (0, []) = e from hentry]
      rw [if_neg (by simp [hee])]
      rw [if_neg hcib]
      rw [hc]
    cases k with
    | zero =>
      have hfin : ci + 1 = e.2.length := by omega
      simp only [runTicks]
      rw [htick]
      have hdrop : e.2.drop ci = [e.2.getD ci ⟨0, 0, 0, false, []⟩] := by
        rw [List.getD_eq_getElem e.2 _ hci, List.drop_eq_getElem_cons hci]
        have h0 : e.2.drop (ci + 1) = [] := by
          apply List.drop_eq_nil_of_le
          omega
        rw [h0]
      rw [hdrop, if_pos (by omega : ci + 1 ≥ e.2.length)]
      rfl
    | succ k =>
      have hlt : ci + 1 < e.2.length := by omega
      have hstep : runTicks (k + 1 + 1) s =
          ((runTicks (k + 1) (tick s).1).1,
            (tick s).2.toList ++ (runTicks (k + 1) (tick s).1).2) := by
        simp only [runTicks]
      rw [hstep, htick]
      rw [if_neg (by omega : ¬(ci + 1 ≥ e.2.length))]
      have hih := ih ({ s with cursor := (pre.length, ci + 1) }) pre post e (ci + 1)
        (by simpa using hq) rfl (by omega) (by omega)
      dsimp only
      rw [hih]
      have hdrop2 : e.2.getD ci ⟨0, 0, 0, false, []⟩ :: e.2.drop (ci + 1) =
          e.2.drop ci := by
        rw [List.getD_eq_getElem e.2 _ hci, ← List.drop_eq_getElem_cons hci]
      simp only [Option.toList_some, List.singleton_append, hdrop2]

/-- A full scheduler traversal over the entries `post` (the queue being
`pre ++ post`, cursor at the start of `post`, every entry non-empty)
transmits every chunk of every entry of `post`, in order, leaves the
queue untouched, and wraps the cursor back to `(0, 0)`. -/
theorem run_full (post : List (Nat × List Chunk)) :
    ∀ (pre : List (Nat × List Chunk)) (s : ProtocolState),
    s.queue = pre ++ post →
    post ≠ [] →
    (∀ e ∈ post, e.2 ≠ []) →
    s.cursor = (pre.length, 0) →
    runTicks ((post.map (fun e => e.2.length)).sum) s =
      ({ s with cursor := (0, 0) }, (post.map (fun e => e.2)).flatten) := by
  induction post with
  | nil =>
    intro _ _ _ hne _ _
    exact absurd rfl hne
  | cons e rest ih =>
    intro pre s hq hne hnonempty hc
    have hel : e.2 ≠ [] := hnonempty e (List.mem_cons_self _ _)
    have helpos : 0 < e.2.length := List.length_pos.mpr hel
    cases rest with
    | nil =>
      have hdrain := tick_drain e.2.length s pre [] e 0 hq (by simpa using hc)
        (by omega) helpos
      have hcond : pre.length + 1 ≥ s.queue.length := by
        rw [hq]
        simp
      rw [if_pos hcond] at hdrain
      have hsum : (((e :: []).map (fun x => x.2.length)).sum) = e.2.length := by
        simp
      rw [hsum, hdrain]
      simp
    | cons f rest' =>
      have hdrain := tick_drain e.2.length s pre (f :: rest') e 0 hq
        (by simpa using hc) (by omega) helpos
      have hcond : ¬(pre.length + 1 ≥ s.queue.length) := by
        rw [hq]
        simp
      rw [if_neg hcond] at hdrain
      have hadd : (((e :: f :: rest').map (fun x => x.2.length)).sum) =
          e.2.length + (((f :: rest').map (fun x => x.2.length)).sum) := by
        simp
      rw [hadd, runTicks_add, hdrain]
      dsimp only
      have hih := ih (pre ++ [e]) ({ s with cursor := (pre.length + 1, 0) })
        (by rw [hq]; simp)
        (by simp)
        (fun x hx => hnonempty x (List.mem_cons_of_mem _ hx))
        (by simp)
      rw [hih]
      simp

/-- C6: with every broadcast-queue entry non-empty and the cursor at
the origin, one full scheduler traversal (`queueIndex` cycling once
through all entries, i.e. as many ticks as there are queued chunks)
transmits every chunk of every entry — in particular at least one
fragment of every entry, so no queued message is starved — while the
queue itself is unchanged; and a scheduler tick with an empty queue
stops the scheduler and transmits nothing. -/
theorem c6_scheduler_fairness (s : ProtocolState)
    (hc : s.cursor = (0, 0))
    (hne : s.queue ≠ [])
    (hk : ∀ e ∈ s.queue, e.2 ≠ []) :
    (runTicks ((s.queue.map (fun e => e.2.length)).sum) s =
      ({ s with cursor := (0, 0) }, (s.queue.map (fun e => e.2)).flatten)) ∧
    (∀ e ∈ s.queue, ∃ c, c ∈ e.2 ∧
      c ∈ (runTicks ((s.queue.map (fun e => e.2.length)).sum) s).2) ∧
    (∀ s' : ProtocolState, s'.queue = [] →
      (tick s').1.running = false ∧ (tick s').2 = none) := by
  have hfull := run_full s.queue [] s (by simp) hne hk (by simpa using hc)
  refine ⟨hfull, ?_, ?_⟩
  · intro e he
    obtain ⟨c, hcmem⟩ := List.exists_mem_of_ne_nil e.2 (hk e he)
    refine ⟨c, hcmem, ?_⟩
    rw [hfull]
    exact List.mem_flatten.mpr ⟨e.2, List.mem_map.mpr ⟨e, he, rfl⟩, hcmem⟩
  · intro s' hq'
    unfold tick
    rw [if_pos (by simp [hq'])]
    exact ⟨rfl, rfl⟩

/-! ## C7: queue-entry removal -/

def cA : Chunk := ⟨1, 2, 1, false, [10, 11, 12, 13, 14, 15]⟩
def cB : Chunk := ⟨1, 2, 2, false, [16, 17, 0, 0, 0, 0]⟩
def cC : Chunk := ⟨2, 1, 1, false, [20, 21, 22, 23, 24, 25]⟩

/-- Two-entry broadcast queue (ids 1 and 2) with the scheduler
running. -/
def sQueue2 : ProtocolState :=
  { initialState with queue := [(1, [cA, cB]), (2, [cC])], running := true }

/-- C6 witness: for the concrete two-entry queue, a full traversal (3
ticks) transmits all three chunks — at least one from each entry — and
leaves the queue unchanged. -/
theorem c6_scheduler_fairness_witness :
    (runTicks ((sQueue2.queue.map (fun e => e.2.length)).sum) sQueue2 =
      ({ sQueue2 with cursor := (0, 0) },
        (sQueue2.queue.map (fun e => e.2)).flatten)) ∧
    (∀ e ∈ sQueue2.queue, ∃ c, c ∈ e.2 ∧
      c ∈ (runTicks ((sQueue2.queue.map (fun e => e.2.length)).sum) sQueue2).2) ∧
    (∀ s' : ProtocolState, s'.queue = [] →
      (tick s').1.running = false ∧ (tick s').2 = none) :=
  c6_scheduler_fairness sQueue2 rfl (by decide) (by decide)

/-- Single-entry broadcast queue: one message (id 3) with exactly one
chunk left. -/
def cSingle : Chunk := ⟨3, 1, 1, false, [1, 2, 3, 4, 5, 6]⟩

def sQueue1 : ProtocolState :=
  { initialState with queue := [(3, [cSingle])], cursor := (0, 0), running := true }

/-- C7 counterexample: the tick that sends the last (only) chunk of the
entry does not remove the entry — it is still queued afterwards and the
very next tick transmits the same chunk again.  Queue entries are never
emptied by the scheduler, so the removal branch
(`broadcastQueueRef.current.delete`) is unreachable for entries created
with at least one chunk. -/
theorem c7_exhaustion_counterexample :
    (tick sQueue1).2 = some cSingle ∧
    (tick sQueue1).1.queue = [(3, [cSingle])] ∧
    (tick (tick sQueue1).1).2 = some cSingle := by
  refine ⟨rfl, rfl, rfl⟩

/-- C7 (amended): a scheduler tick never removes an entry whose stored
chunk list is non-empty; in particular, after the tick that transmits
the last chunk of an entry the entry is still in the queue and will be
transmitted again on the next pass.  An entry is removed by a tick only
when its stored chunk list is empty, a state that enqueueing (which
always stores the full non-empty chunk list and never consumes it)
cannot produce. -/
theorem c7_no_removal_on_exhaustion (s : ProtocolState)
    (hk : ∀ e ∈ s.queue, e.2 ≠ []) :
    (tick s).1.queue = s.queue ∧
    (s.queue ≠ [] → (tick s).2.isSome = true) := by
  by_cases hq : s.queue.isEmpty
  · constructor
    · unfold tick
      rw [if_pos (by simp [hq])]
      rfl
    · intro hne
      exact absurd (List.isEmpty_iff.mp hq) hne
  · have hlen : 0 < s.queue.length := by
      cases h : s.queue with
      | nil => rw [h] at hq; simp at hq
      | cons a b => simp [h]
    have hqi : (if s.cursor.1 ≥ s.queue.length then 0 else s.cursor.1) <
        s.queue.length := by
      split
      · exact hlen
      · omega
    have hmem : s.queue.getD (if s.cursor.1 ≥ s.queue.length then 0 else s.cursor.1)
        (0, []) ∈ s.queue := by
      rw [List.getD_eq_getElem s.queue _ hqi]
      exact List.getElem_mem hqi
    have hentry2 : ¬(s.queue.getD
        (if s.cursor.1 ≥ s.queue.length then 0 else s.cursor.1) (0, [])).2.isEmpty := by
      have := hk _ hmem
      simpa [List.isEmpty_iff] using this
    constructor
    · unfold tick
      rw [if_neg (by simp [hq])]
      dsimp only
      rw [if_neg hentry2]
    · intro _
      unfold tick
      rw [if_neg (by simp [hq])]
      dsimp only
      rw [if_neg hentry2]
      rfl

/-- C7 witness: in the concrete single-entry queue, a tick leaves queue
membership unchanged and transmits a chunk. -/
theorem c7_no_removal_witness :
    (tick sQueue1).1.queue = sQueue1.queue ∧
    (sQueue1.queue ≠ [] → (tick sQueue1).2.isSome = true) :=
  c7_no_removal_on_exhaustion sQueue1 (by decide)

/-! ## Outbound path: `broadcastMessage`, `relayQuery`, and the
connectivity-change cleanup of `BleProvider` -/

/-- Pair the chunks with 1-based indices
(`new Map(chunks.map((c, i) => [i + 1, c]))`). -/
def keyByIndex {α : Type} : Nat → List α → List (Nat × α)
  | _, [] => []
  | k, c :: rest => (k, c) :: keyByIndex (k + 1) rest

/-- `addToBroadcastQueue` of `BleContext.tsx`: store the chunk list
under the message id and start the scheduler if it is not running
(starting resets the cursor to `(0, 0)`). -/
def addToBroadcastQueue (id : Nat) (chunks : List Chunk) (s : ProtocolState) :
    ProtocolState :=
  let s1 : ProtocolState := { s with queue := mapSet s.queue id chunks }
  if s1.running then s1 else { s1 with running := true, cursor := (0, 0) }

/-- The complete own-message entry `broadcastMessage` stores in
`masterStateRef`. -/
def broadcastEntry (freshId : Nat) (message : List Nat) : MessageState :=
  { id := freshId
    totalChunks := (encodeMessageToChunks freshId false message).length
    isComplete := true
    isAck := false
    chunks := keyByIndex 1 (encodeMessageToChunks freshId false message)
    fullMessage := message }

/-- `broadcastMessage` of `BleContext.tsx`: encode the message with
`isAck: false` under a fresh id (id generation lives in the missing
`bleUtils.ts`, so the fresh id is a parameter), record the id as our
own, store the complete `MessageState`, and enqueue the chunks. -/
def broadcastMessage (freshId : Nat) (message : List Nat) (s : ProtocolState) :
    ProtocolState :=
  let chunks := encodeMessageToChunks freshId false message
  addToBroadcastQueue freshId chunks
    { s with
        own := listAdd s.own freshId
        master := mapSet s.master freshId (broadcastEntry freshId message) }

/-- `relayQuery` of `BleContext.tsx`: if the device has connectivity,
return immediately (ChatContext calls the API directly); only when
offline serialize the query (`payload` stands for the serialized
`RELAY_QUERY` JSON bytes) and broadcast it. -/
def relayQuery (hasInternet : Bool) (freshId : Nat) (payload : List Nat)
    (s : ProtocolState) : ProtocolState :=
  if hasInternet then s else broadcastMessage freshId payload s

/-- C9: calling `relayQuery` while the device has connectivity is a
complete no-op on the protocol state — the broadcast queue, the
reassembly map and `ownMessageIds` (indeed the whole state) are
unchanged and nothing is encoded or enqueued; only when offline does
`relayQuery` encode the query and enqueue it: the queue gains exactly
the encoded chunk list under the fresh id, `ownMessageIds` gains the
id, and the reassembly map gains the complete own-message entry, with
no other key of any of the three touched (`mapSet`/`listAdd` change
only the given key). -/
theorem c9_relayQuery_frame (s : ProtocolState) (freshId : Nat) (payload : List Nat) :
    relayQuery true freshId payload s = s ∧
    (relayQuery false freshId payload s).queue =
      mapSet s.queue freshId (encodeMessageToChunks freshId false payload) ∧
    (relayQuery false freshId payload s).own = listAdd s.own freshId ∧
    (relayQuery false freshId payload s).master =
      mapSet s.master freshId (broadcastEntry freshId payload) := by
  refine ⟨rfl, ?_, ?_, ?_⟩ <;>
    · rw [show relayQuery false freshId payload s =
          broadcastMessage freshId payload s from rfl]
      unfold broadcastMessage addToBroadcastQueue
      dsimp only
      split <;> rfl

/-- C9 witness at a concrete state: queue, own-id set and reassembly
map of the two-entry state after an online call are untouched, and an
offline call enqueues exactly the encoded chunks. -/
theorem c9_relayQuery_frame_witness :
    relayQuery true 7 [65, 0, 66] sQueue2 = sQueue2 ∧
    (relayQuery false 7 [65, 0, 66] sQueue2).queue =
      mapSet sQueue2.queue 7 (encodeMessageToChunks 7 false [65, 0, 66]) ∧
    (relayQuery false 7 [65, 0, 66] sQueue2).own = listAdd sQueue2.own 7 ∧
    (relayQuery false 7 [65, 0, 66] sQueue2).master =
      mapSet sQueue2.master 7 (broadcastEntry 7 [65, 0, 66]) :=
  c9_relayQuery_frame sQueue2 7 [65, 0, 66]

/-- The entry-retention predicate of the connectivity-change cleanup:
`state?.isAck` — keep a queue entry iff the reassembly map holds an
entry for its id with the ack flag set. -/
def keepAck (master : List (Nat × MessageState)) (e : Nat × List Chunk) : Bool :=
  match mapLookup master e.1 with
  | some st => st.isAck
  | none => false

/-- The `useEffect` cleanup of `BleProvider` that runs when the device
comes online (lines 741-769): collect the entries whose stored
`MessageState` has the ack flag set, clear the queue, re-insert the
kept entries, and stop the broadcast loop if the queue ended up empty
while the scheduler was running. -/
def onConnectivityOnline (s : ProtocolState) : ProtocolState :=
  let entriesToKeep :=
    s.queue.foldl (fun acc e => if keepAck s.master e then acc ++ [e] else acc) []
  let queue' := entriesToKeep.foldl (fun q e => mapSet q e.1 e.2) []
  if queue'.length = 0 ∧ s.running then
    { s with queue := queue', running := false, cursor := (0, 0) }
  else
    { s with queue := queue' }

theorem foldl_push_filter {α : Type} (p : α → Bool) (l : List α) :
    ∀ (acc : List α),
      l.foldl (fun acc e => if p e then acc ++ [e] else acc) acc = acc ++ l.filter p := by
  induction l with
  | nil => intro acc; simp
  | cons x xs ih =>
    intro acc
    by_cases hx : p x <;> simp [List.filter_cons, hx, ih]

theorem mapLookup_eq_none_of_not_mem_keys {α β : Type} [DecidableEq α]
    (m : List (α × β)) (k : α) (h : k ∉ m.map Prod.fst) :
    mapLookup m k = none := by
  induction m with
  | nil => rfl
  | cons hd tl ih =>
    obtain ⟨k', v'⟩ := hd
    simp only [List.map_cons, List.mem_cons] at h
    push_neg at h
    simp [mapLookup, h.1, ih h.2]

theorem foldl_mapSet_of_nodup {α β : Type} [DecidableEq α] (l : List (α × β)) :
    ∀ (acc : List (α × β)),
    (l.map Prod.fst).Nodup →
    (∀ k ∈ l.map Prod.fst, k ∉ acc.map Prod.fst) →
    l.foldl (fun q e => mapSet q e.1 e.2) acc = acc ++ l := by
  induction l with
  | nil => intro acc _ _; simp
  | cons x xs ih =>
    intro acc hnd hdisj
    obtain ⟨k, v⟩ := x
    simp only [List.foldl_cons]
    have hkacc : mapLookup acc k = none :=
      mapLookup_eq_none_of_not_mem_keys acc k
        (hdisj k (by simp))
    rw [mapSet_of_lookup_none acc k v hkacc]
    simp only [List.map_cons, List.nodup_cons] at hnd
    have hih := ih (acc ++ [(k, v)]) hnd.2 ?_
    · rw [hih]
      simp
    · intro k' hk'
      simp only [List.map_append, List.mem_append]
      push_neg
      refine ⟨hdisj k' (by simp [hk']), ?_⟩
      simp only [List.map_cons, List.map_nil, List.mem_singleton]
      intro hkk
      exact hnd.1 (hkk ▸ hk')

theorem not_mem_keys_of_lookup_none {α β : Type} [DecidableEq α]
    (m : List (α × β)) (k : α) (h : mapLookup m k = none) :
    k ∉ m.map Prod.fst := by
  induction m with
  | nil => simp
  | cons hd tl ih =>
    obtain ⟨k', v'⟩ := hd
    by_cases hk : k = k'
    · simp [mapLookup, hk] at h
    · simp only [mapLookup, if_neg hk] at h
      simp [hk, ih h]

theorem mapSet_keys_nodup {α β : Type} [DecidableEq α]
    (m : List (α × β)) (k : α) (v : β) (hnd : (m.map Prod.fst).Nodup) :
    ((mapSet m k v).map Prod.fst).Nodup := by
  cases hl : mapLookup m k with
  | some w => rw [mapSet_keys_of_lookup_some m k w v hl]; exact hnd
  | none =>
    rw [mapSet_of_lookup_none m k v hl]
    have hk := not_mem_keys_of_lookup_none m k hl
    simp [List.nodup_append, hnd, hk]

theorem mapLookup_filter_eq_none {α β : Type} [DecidableEq α]
    (l : List (α × β)) (p : α × β → Bool) (k : α)
    (h : ∀ v, p (k, v) = false) :
    mapLookup (l.filter p) k = none := by
  induction l with
  | nil => rfl
  | cons hd tl ih =>
    obtain ⟨k', v'⟩ := hd
    by_cases hk : k = k'
    · subst hk
      simp [List.filter_cons, h v', ih]
    · by_cases hp : p (k', v') <;> simp [List.filter_cons, hp, mapLookup, hk, ih]

@[simp] theorem broadcastMessage_queue (freshId : Nat) (payload : List Nat)
    (s : ProtocolState) :
    (broadcastMessage freshId payload s).queue =
      mapSet s.queue freshId (encodeMessageToChunks freshId false payload) := by
  unfold broadcastMessage addToBroadcastQueue
  dsimp only
  split <;> rfl

@[simp] theorem broadcastMessage_master (freshId : Nat) (payload : List Nat)
    (s : ProtocolState) :
    (broadcastMessage freshId payload s).master =
      mapSet s.master freshId (broadcastEntry freshId payload) := by
  unfold broadcastMessage addToBroadcastQueue
  dsimp only
  split <;> rfl

theorem onConnectivityOnline_char (s : ProtocolState)
    (hnd : (s.queue.map Prod.fst).Nodup) :
    onConnectivityOnline s =
      if (s.queue.filter (keepAck s.master)).length = 0 ∧ s.running then
        { s with queue := s.queue.filter (keepAck s.master),
                 running := false, cursor := (0, 0) }
      else
        { s with queue := s.queue.filter (keepAck s.master) } := by
  have hkeep : s.queue.foldl
      (fun acc e => if keepAck s.master e then acc ++ [e] else acc) [] =
      s.queue.filter (keepAck s.master) := by
    rw [foldl_push_filter]
    simp
  have hnd' : ((s.queue.filter (keepAck s.master)).map Prod.fst).Nodup := by
    have hsub : List.Sublist ((s.queue.filter (keepAck s.master)).map Prod.fst)
        (s.queue.map Prod.fst) := (List.filter_sublist s.queue).map _
    exact hnd.sublist hsub
  have hqueue' : (s.queue.filter (keepAck s.master)).foldl
      (fun q e => mapSet q e.1 e.2) [] = s.queue.filter (keepAck s.master) := by
    have h := foldl_mapSet_of_nodup (s.queue.filter (keepAck s.master)) []
      hnd' (by intro k _; simp)
    simpa using h
  unfold onConnectivityOnline
  dsimp only
  rw [hkeep, hqueue']

theorem onConnectivityOnline_queue (s : ProtocolState)
    (hnd : (s.queue.map Prod.fst).Nodup) :
    (onConnectivityOnline s).queue = s.queue.filter (keepAck s.master) := by
  rw [onConnectivityOnline_char s hnd]
  split <;> rfl

/-- C10: when the connectivity signal turns online, exactly the
broadcast-queue entries whose stored `MessageState` has the ack flag
set are retained (entries with a non-ack state or no state at all are
removed, in their original order); the scheduler keeps running iff it
was running and some entry survived; and any message queued through
`broadcastMessage` — as relay responses are — is stored with the ack
flag cleared and is therefore removed by the cleanup. -/
theorem c10_online_cleanup (s : ProtocolState)
    (hnd : (s.queue.map Prod.fst).Nodup) :
    (onConnectivityOnline s).queue = s.queue.filter (keepAck s.master) ∧
    (onConnectivityOnline s).running =
      (s.running && !(s.queue.filter (keepAck s.master)).isEmpty) ∧
    (∀ (freshId : Nat) (payload : List Nat),
      mapLookup (onConnectivityOnline (broadcastMessage freshId payload s)).queue
        freshId = none) := by
  refine ⟨onConnectivityOnline_queue s hnd, ?_, ?_⟩
  · rw [onConnectivityOnline_char s hnd]
    split
    · rename_i h
      obtain ⟨h0, hr⟩ := h
      have hemp : (s.queue.filter (keepAck s.master)).isEmpty = true := by
        rw [List.isEmpty_iff_length_eq_zero]
        exact h0
      simp [hemp]
    · rename_i h
      rw [not_and_or] at h
      rcases h with h | h
      · have hemp : (s.queue.filter (keepAck s.master)).isEmpty = false := by
          rw [List.isEmpty_eq_false_iff_exists_mem]
          have hne : s.queue.filter (keepAck s.master) ≠ [] := by
            intro hcon
            exact h (by rw [hcon]; rfl)
          exact List.exists_mem_of_ne_nil _ hne
        simp [hemp]
      · have hr : s.running = false := by
          revert h
          cases s.running <;> simp
        simp [hr]
  · intro freshId payload
    have hnd2 : ((broadcastMessage freshId payload s).queue.map Prod.fst).Nodup := by
      rw [broadcastMessage_queue]
      exact mapSet_keys_nodup s.queue freshId _ hnd
    rw [onConnectivityOnline_queue _ hnd2]
    apply mapLookup_filter_eq_none
    intro v
    unfold keepAck
    rw [broadcastMessage_master, mapLookup_mapSet_self]
    rfl

/-- C10 witness: in the concrete two-entry state (no ack entries in the
reassembly map) the cleanup empties the queue and stops the scheduler,
and a freshly broadcast message is removed by the cleanup. -/
theorem c10_online_cleanup_witness :
    (onConnectivityOnline sQueue2).queue =
      sQueue2.queue.filter (keepAck sQueue2.master) ∧
    (onConnectivityOnline sQueue2).running =
      (sQueue2.running && !(sQueue2.queue.filter (keepAck sQueue2.master)).isEmpty) ∧
    (∀ (freshId : Nat) (payload : List Nat),
      mapLookup (onConnectivityOnline
        (broadcastMessage freshId payload sQueue2)).queue freshId = none) :=
  c10_online_cleanup sQueue2 (by decide)

end Pulse
